import Mathlib

/-!
Shallow embedding of `Make_Somatic_Mutation_Overview.py`.

The script classifies, per sample and per gene, the most deleterious somatic
mutation in a set of VCF files.  The embedding below translates the decision
logic of the script into Lean: the effect vocabulary and its severity scores,
the per-record QC gates (`check_ad`, `check_depth`, `check_vaf`, population
and cohort frequency), the effect resolver (`find_effects`), the per-gene
aggregation (`select_maximum_effect` plus the classification block of `main`),
and the detail-row emission for the mutation chart.

Conventions used throughout:
- Python floats are modelled as rationals; rational values are built with
  `mkRat` / `Rat.divInt` / `Rat.mul` so that concrete instances evaluate.
- Fallible Python evaluation (KeyError, IndexError, AttributeError,
  TypeError, ZeroDivisionError, ValueError) is modelled with `Option`:
  `none` means the interpreter raises.
- Python string `split`, `replace` and `in` are re-implemented on `List Char`
  so that they compute by kernel reduction.
-/

/-- Split a list of characters at every occurrence of `sep`.  Mirrors the
behaviour of the Python single-character `str.split`. -/
def splitChar (sep : Char) : List Char → List (List Char)
  | [] => [[]]
  | c :: rest =>
    let r := splitChar sep rest
    if c = sep then [] :: r
    else (c :: r.headD []) :: r.tail

/-- Python `s.split(sep)` for a one-character separator. -/
def pySplit (s : String) (sep : Char) : List String :=
  (splitChar sep s.data).map String.mk

/-- Python `s.replace(c, "")`: drop every occurrence of the character. -/
def stripChar (c : Char) (s : String) : String :=
  String.mk (s.data.filter (fun a => a ≠ c))

/-- Decimal digit parser; `none` when empty or a non-digit occurs, like
Python `int` on a bad literal. -/
def parseDigits (l : List Char) : Option Nat :=
  match l with
  | [] => none
  | _ =>
    l.foldl
      (fun acc c =>
        match acc with
        | none => none
        | some n => if c.isDigit then some (n * 10 + (c.toNat - 48)) else none)
      (some 0)

/-- Python `int(s)` restricted to optionally signed decimal literals. -/
def pyToInt (s : String) : Option Int :=
  match s.data with
  | '-' :: rest => (parseDigits rest).map (fun n => -(n : Int))
  | l => (parseDigits l).map (fun n => (n : Int))

/-- Python list indexing with negative-index wrap-around; `none` models an
IndexError. -/
def pyIndex {α : Type} (l : List α) (i : Int) : Option α :=
  if 0 ≤ i then l.get? i.toNat
  else
    let j := (l.length : Int) + i
    if 0 ≤ j then l.get? j.toNat else none

/-- Contiguous-prefix test on character lists. -/
def isPrefixOfChars : List Char → List Char → Bool
  | [], _ => true
  | _ :: _, [] => false
  | a :: as, b :: bs => a = b && isPrefixOfChars as bs

/-- Contiguous-substring test; `containsSub hay needle`. -/
def containsSub : List Char → List Char → Bool
  | hay, needle =>
    if isPrefixOfChars needle hay then true
    else
      match hay with
      | [] => false
      | _ :: t => containsSub t needle

/-- Python `needle in hay` on strings. -/
def pyInStr (needle hay : String) : Bool :=
  containsSub hay.data needle.data

/-- Monadic map over `Option`, modelling a Python list comprehension in which
each element may raise. -/
def mapOpt {α β : Type} (f : α → Option β) : List α → Option (List β)
  | [] => some []
  | a :: as =>
    match f a with
    | none => none
    | some b =>
      match mapOpt f as with
      | none => none
      | some bs => some (b :: bs)

/-- Monadic left fold over `Option`, modelling a Python loop whose body may
raise. -/
def foldlOpt {σ α : Type} (f : σ → α → Option σ) : σ → List α → Option σ
  | s, [] => some s
  | s, a :: as =>
    match f s a with
    | none => none
    | some s2 => foldlOpt f s2 as

/-- Maximum of a non-empty rational list, Python `max`; the `[]` case is a
dummy (the script only applies it to lists seeded with `0.0`). -/
def listMax : List ℚ → ℚ
  | [] => 0
  | x :: xs => xs.foldl max x

-- ---------------------------------------------------------------------
-- Static tables of the script (source lines 41-66).

/-- Severity table `vocabulary` of the script, in source order. -/
def vocabulary : List (String × ℚ) :=
  [("None", mkRat (-1) 1), ("clean", 0),
   ("sequence_feature", 0), ("intron_variant", 0),
   ("3_prime_UTR_variant", 0), ("5_prime_UTR_variant", 0),
   ("non_coding_exon_variant", 0),
   ("TF_binding_site_variant", mkRat 1 2), ("splice_region_variant", mkRat 1 2),
   ("synonymous_variant", 1),
   ("missense_variant", mkRat 3 2),
   ("splice_donor_variant", 2), ("splice_acceptor_variant", 2),
   ("inframe_deletion", mkRat 21 10), ("inframe_insertion", mkRat 21 10),
   ("disruptive_inframe_deletion", mkRat 5 2),
   ("disruptive_inframe_insertion", mkRat 5 2),
   ("5_prime_UTR_premature_start_codon_gain_variant", 3),
   ("stop_gained", 4), ("nonsense_mediated_decay", 4),
   ("frameshift_variant", 4)]

/-- Dictionary lookup in `vocabulary`; `none` models a KeyError. -/
def vocab (s : String) : Option ℚ :=
  List.lookup s vocabulary

/-- Severity with the sentinel default; only ever applied to keys of the
vocabulary along the execution paths of the script. -/
def sevD (s : String) : ℚ :=
  (vocab s).getD (mkRat (-1) 1)

/-- MAF display-name table `mapping` of the script. -/
def mapping : List (String × String) :=
  [("synonymous_variant", "Silent"), ("missense_variant", "Missense_Mutation"),
   ("disruptive_inframe_deletion", "Frame_Shift_Del"),
   ("disruptive_inframe_insertion", "Frame_Shift_Ins"),
   ("5_prime_UTR_premature_start_codon_gain_variant", "Nonsense_Mutation"),
   ("stop_gained", "Nonsense_Mutation"),
   ("nonsense_mediated_decay", "Nonsense_Mutation"),
   ("frameshift_variant", "Frame_Shift_???")]

/-- Population-frequency INFO fields `FREQ_FIELDS` of the script. -/
def FREQ_FIELDS : List String :=
  ["dbNSFP_ExAC_AF", "dbNSFP_ExAC_Adj_AF", "GoNLv5_Freq", "GoNLv5_AF"]

/-- Line 73 of the script: keys of `vocabulary` whose severity reaches the
configured minimum effect score. -/
def toselect (mineff : ℚ) : List String :=
  (vocabulary.filter (fun kv => decide (mineff ≤ kv.2))).map Prod.fst

/-- Python `eff in toselect`. -/
def isReportable (mineff : ℚ) (e : String) : Bool :=
  decide (e ∈ toselect mineff)

-- ---------------------------------------------------------------------
-- Data model.

/-- Shape of the genotype depth field: a single integer (FreeBayes `DP`) or a
per-allele list (GATK `AD`).  Mirrors the `isinstance(..., int)` branching. -/
inductive ADField where
  | scalar (n : Int)
  | multi (l : List Int)
deriving DecidableEq

/-- One sample genotype block of a VCF record.  `depth` is the value at the
configured `DEPTH_KEY` and `vaf` the list at the configured `VAF_KEY`; `none`
covers both a missing FORMAT field (AttributeError) and an explicit null. -/
structure Genotype where
  gt : String
  depth : Option ADField
  vaf : Option (List Int)

/-- One VCF record, restricted to the fields the script reads.  `ann` is the
raw pipe-delimited annotation string list `INFO["ANN"]`, `freqInfo` the
population-frequency INFO fields actually present on the record, and `mleaf`
the `INFO["MLEAF"]` list. -/
structure VcfRecord where
  chrom : String
  pos : Int
  ref : String
  alt : List String
  ann : Option (List String)
  freqInfo : List (String × List (Option ℚ))
  mleaf : Option (List ℚ)

/-- Thresholds of the script (command-line options). -/
structure Config where
  mindepth : Int
  minvaf : ℚ
  popfreq : ℚ
  cohfreq : ℚ
  mineff : ℚ
  canonical : Bool

-- ---------------------------------------------------------------------
-- Record filter (source lines 199-233).

/-- Lines 199-206: the allele-support field must be present and non-null. -/
def check_ad (g : Genotype) : Bool :=
  g.depth.isSome

/-- Lines 209-220: total depth (scalar, or sum over the allele list) must
reach `mindepth`. -/
def check_depth (mindepth : Int) (df : ADField) : Bool :=
  match df with
  | .scalar n => !decide (n < mindepth)
  | .multi l => !decide (l.sum < mindepth)

/-- Total depth of the genotype field: the scalar itself, or the sum over
the allele list. -/
def totalDepth (df : ADField) : Int :=
  match df with
  | .scalar n => n
  | .multi l => l.sum

/-- Python `sum` applied to the depth field, as done by the eager log
formatting on line 399 and by the VAF computation on line 505: it is only
defined for the list layout, and a scalar depth raises a TypeError,
modelled by `none`. -/
def adList (df : ADField) : Option (List Int) :=
  match df with
  | .scalar _ => none
  | .multi l => some l

/-- Lines 222-233: variant allele fraction, the non-reference allele support
over total depth, must reach `minvaf`.  `none` models an AttributeError on a
missing field or a ZeroDivisionError on zero total depth. -/
def check_vaf (minvaf : ℚ) (g : Genotype) : Option Bool :=
  g.depth.bind (fun df =>
    g.vaf.bind (fun vf =>
      if totalDepth df = 0 then none
      else some (!decide (Rat.divInt (vf.drop 1).sum (totalDepth df) < minvaf))))

/-- Values contributed to the population-frequency scan: for each configured
field present on the record, its values with null replaced by `0.0`. -/
def popfreqContribs (r : VcfRecord) : List ℚ :=
  (FREQ_FIELDS.map (fun f =>
    (List.lookup f r.freqInfo).elim []
      (fun xs => xs.map (fun x => x.getD 0)))).flatten

/-- Lines 119-129: `find_popfreq` starts from `[0.0]` and appends every value
of every configured frequency field present on the record. -/
def find_popfreq (r : VcfRecord) : List ℚ :=
  0 :: popfreqContribs r

/-- Line 410: the population-frequency gate of the record filter. -/
def popfreqGate (pf : ℚ) (r : VcfRecord) : Bool :=
  decide (listMax (find_popfreq r) ≤ pf)

/-- Line 414: `max(INFO["MLEAF"]) <= cohfreq`; `none` models the ValueError
of `max` on an empty list. -/
def cohortGate (cf : ℚ) (ml : List ℚ) : Option Bool :=
  match ml with
  | [] => none
  | m :: rest => some (decide (rest.foldl max m ≤ cf))

-- ---------------------------------------------------------------------
-- Effect resolver (source lines 132-177).

/-- Inner loop of `find_effects` over the `&`-separated effect terms of one
annotation: keep the most severe known term, ignore unknown terms. -/
def updateMax : String → List String → String
  | acc, [] => acc
  | acc, t :: ts =>
      updateMax (if (vocab t).isSome && decide (sevD acc < sevD t) then t else acc) ts

/-- One iteration of the `find_effects` loop over `INFO["ANN"]`.  An
annotation is skipped when its leading allele field differs from the called
allele, and, in canonical mode, when its gene field is degenerate or its
transcript field differs from the canonical transcript; `none` models an
IndexError on a malformed annotation. -/
def annStep (canonical : Bool) (cm : String → String) (sample_gt : String)
    (acc : String) (pred : String) : Option String :=
  let items := pySplit pred '|'
  if items.headD "" ≠ sample_gt then some acc
  else if canonical then
    (items.get? 4).bind (fun gene =>
      if gene.length ≤ 1 then some acc
      else
        (items.get? 6).bind (fun tx =>
          if tx ≠ cm gene then some acc
          else
            (items.get? 1).bind (fun ef =>
              some (updateMax acc (pySplit ef '&')))))
  else
    (items.get? 1).bind (fun ef =>
      some (updateMax acc (pySplit ef '&')))

/-- Lines 132-177: most deleterious known effect of the record for the called
allele, starting from the sentinel `"None"`.  The canonical-transcript map
`cm` stands for the external Ensembl lookup memoised by the script. -/
def find_effects (canonical : Bool) (cm : String → String) (r : VcfRecord)
    (sample_gt : String) : Option String :=
  match r.ann with
  | none => some "None"
  | some anns => foldlOpt (annStep canonical cm sample_gt) "None" anns

-- ---------------------------------------------------------------------
-- Maximum-effect selection (source lines 180-184).

/-- Index of the first occurrence of the maximum, the behaviour of
`numpy.argmax`. -/
def argmaxIdx : List ℚ → Nat
  | [] => 0
  | [_] => 0
  | x :: y :: rest =>
    if x < (y :: rest).getD (argmaxIdx (y :: rest)) 0 then argmaxIdx (y :: rest) + 1
    else 0

/-- Lines 180-184: `select_maximum_effect` looks up every effect in the
vocabulary (`none` models a KeyError) and returns the argmax index; `none`
also covers the ValueError of `numpy.argmax` on an empty list. -/
def select_maximum_effect (effects : List String) : Option Nat :=
  (mapOpt vocab effects).bind (fun vals =>
    if vals.isEmpty then none else some (argmaxIdx vals))

-- ---------------------------------------------------------------------
-- Per-record, per-sample stage of `main` (source lines 389-427).

/-- Lines 420-422: decode the diploid genotype string and resolve the called
alternate allele, `ALT[int(GT.replace(chr(124), "").split(chr(47))[-1]) - 1]`
with Python negative-index semantics; `none` models a ValueError of `int` or
an IndexError on `ALT`. -/
def resolveCalledAllele (r : VcfRecord) (g : Genotype) : Option String :=
  let calls := pySplit (stripChar '|' g.gt) '/'
  (pyToInt (calls.getLastD "")).bind (fun k => pyIndex r.alt (k - 1))

/-- Lines 389-427: the full per-record, per-sample gate of `main`, returning
the list of entries appended to the effect sequence of that sample for this
record: nothing when the allele-support or depth gate fails, `"clean"` once
the depth gate passes, and additionally the resolved effect when every later
gate passes.  `none` models an uncaught exception: right after the depth
gate, line 399 eagerly formats the log string with
`sum(genotype[VAF_KEY][1:])*1.0/sum(genotype[DEPTH_KEY])`, which raises a
TypeError on a scalar depth field and a ZeroDivisionError on zero total
depth BEFORE the `"clean"` append of line 402; later exceptions are the
missing `MLEAF` field and a malformed genotype or annotation. -/
def processRecordSample (cfg : Config) (cm : String → String) (r : VcfRecord)
    (g : Genotype) : Option (List String) :=
  g.depth.elim (some []) (fun df =>
    if check_depth cfg.mindepth df then
      (adList df).bind (fun dl =>
        g.vaf.bind (fun _vf =>
          if dl.sum = 0 then none
          else
            (check_vaf cfg.minvaf g).bind (fun vafOk =>
              if vafOk then
                if popfreqGate cfg.popfreq r then
                  r.mleaf.bind (fun ml =>
                    (cohortGate cfg.cohfreq ml).bind (fun cohOk =>
                      if cohOk then
                        (resolveCalledAllele r g).bind (fun sgt =>
                          (find_effects cfg.canonical cm r sgt).map
                            (fun e => ["clean", e]))
                      else some ["clean"]))
                else some ["clean"]
              else some ["clean"])))
    else some [])

-- ---------------------------------------------------------------------
-- Per-gene scan and aggregation (source lines 341-459).

/-- Line 372: `gencheck`, true when some annotation string of the record
contains the gene symbol as a substring. -/
def annHasSymbol (symbol : String) (anns : List String) : Bool :=
  anns.any (fun a => pyInStr symbol a)

/-- Lines 367-374: a record counts for the gene when it has an `ANN` field
and some annotation mentions the gene symbol. -/
def geneRelevant (symbol : String) (r : VcfRecord) : Bool :=
  match r.ann with
  | none => false
  | some anns => annHasSymbol symbol anns

/-- Line 377: `nr_of_positions`, the number of records of the gene region
carrying an annotation for the gene symbol; shared across samples. -/
def countAnnotated (symbol : String)
    (recs : List (VcfRecord × Option Genotype)) : Nat :=
  (recs.filter (fun rg => geneRelevant symbol rg.1)).length

/-- Lines 364-427 for one sample: the effect sequence collected over the
records of a gene region.  Each record is paired with the genotype block of
the sample, `none` standing for the AttributeError that makes the script
skip the record for this sample (line 385). -/
def collectEffects (cfg : Config) (cm : String → String) (symbol : String) :
    List (VcfRecord × Option Genotype) → Option (List String)
  | [] => some []
  | (r, og) :: rest =>
    if geneRelevant symbol r then
      match og with
      | none => collectEffects cfg cm symbol rest
      | some g =>
        match processRecordSample cfg cm r g with
        | none => none
        | some l =>
          match collectEffects cfg cm symbol rest with
          | none => none
          | some ls => some (l ++ ls)
    else collectEffects cfg cm symbol rest

/-- Lines 431-459: per-(sample, gene) aggregation.  Returns the
classification written to the overview table, the reportable-effect count
written to the count table, and, when a reportable effect with a MAF display
name is found, the retained index and effect name used for the detail
report.  The division on line 456 is Python 3 true division. -/
def aggregate (mineff : ℚ) (nrPos : Nat) (effects : List String) :
    Option (String × Nat × Option (Nat × String)) :=
  if effects.isEmpty then some ("None", 0, none)
  else
    let count := (effects.filter (fun e => isReportable mineff e)).length
    (select_maximum_effect effects).bind (fun loc =>
      let eff := effects.getD loc "None"
      if isReportable mineff eff then
        some (eff, count,
          if (List.lookup eff mapping).isSome then some (loc, eff) else none)
      else
        if Rat.divInt (nrPos : Int) 2 ≤ ((effects.count "clean" : Nat) : ℚ) then
          some ("clean", count, none)
        else
          some ("None", count, none))

/-- One gene, one sample: collect the effect sequence over the region records
and aggregate it with the shared annotated-position count. -/
def processGeneSample (cfg : Config) (cm : String → String) (symbol : String)
    (recs : List (VcfRecord × Option Genotype)) :
    Option (String × Nat × Option (Nat × String)) :=
  (collectEffects cfg cm symbol recs).bind (fun effs =>
    aggregate cfg.mineff (countAnnotated symbol recs) effs)

-- ---------------------------------------------------------------------
-- Detail-row emission (source lines 501-522).

/-- Fuel-driven base-2 logarithm on naturals, `log2fuel fuel n` with enough
fuel computes the largest `k` with `2 ^ k ≤ n` (and `0` for `n < 2`). -/
def log2fuel : Nat → Nat → Nat
  | 0, _ => 0
  | fuel + 1, n => if 2 ≤ n then log2fuel fuel (n / 2) + 1 else 0

/-- Floor of the base-2 logarithm of a natural number. -/
def natLog2 (n : Nat) : Nat :=
  log2fuel n n

/-- The integer `2 ^ m`. -/
def pow2Int (m : Nat) : Int :=
  ((2 ^ m : Nat) : Int)

/-- The rational `2 ^ e` for a signed exponent. -/
def qpow2 (e : Int) : ℚ :=
  if 0 ≤ e then Rat.divInt (pow2Int e.toNat) 1
  else Rat.divInt 1 (pow2Int (-e).toNat)

/-- The rational `x * 2 ^ k` for a signed exponent. -/
def qscale (x : ℚ) (k : Int) : ℚ :=
  if 0 ≤ k then Rat.divInt (x.num * pow2Int k.toNat) (x.den : Int)
  else Rat.divInt x.num ((x.den : Int) * pow2Int (-k).toNat)

/-- Absolute value of a rational. -/
def ratAbs (q : ℚ) : ℚ :=
  Rat.divInt (q.num.natAbs : Int) (q.den : Int)

/-- Negation of a rational, on the numerator. -/
def ratNeg (q : ℚ) : ℚ :=
  Rat.divInt (-q.num) (q.den : Int)

/-- Floor of the base-2 logarithm of a positive rational `n / d`: the crude
estimate `natLog2 n - natLog2 d` is pinned between `e - 1` and `e + 1` for
the true floor `e`, so one comparison settles it. -/
def log2floor (x : ℚ) : Int :=
  let e0 : Int := (natLog2 x.num.natAbs : Int) - (natLog2 x.den : Int)
  if x < qpow2 e0 then e0 - 1 else e0

/-- Round a rational to the nearest integer, ties to even (the rounding
used both by binary64 arithmetic and by Python `round`). -/
def roundHalfEven (x : ℚ) : Int :=
  let a := x.num
  let b := (x.den : Int)
  let n := Int.fdiv a b
  let r := a - b * n
  if 2 * r < b then n
  else if b < 2 * r then n + 1
  else if n % 2 = 0 then n else n + 1

/-- The nearest IEEE-754 binary64 value of a rational, as an exact rational:
the 53-bit significand is obtained by rounding `|q| * 2 ^ (52 - e)` to the
nearest integer, ties to even, with the scale clamped at `2 ^ -1074` in the
subnormal range.  Overflow to infinity is not modelled (unreachable for the
ratios of read counts this program divides). -/
def toDouble (q : ℚ) : ℚ :=
  if q.num = 0 then 0
  else
    let x := ratAbs q
    let e := log2floor x
    let k : Int := if e < -1022 then 1074 else 52 - e
    let m := roundHalfEven (qscale x k)
    let d := qscale (Rat.divInt m 1) (-k)
    if q.num < 0 then ratNeg d else d

/-- Python `round(x, 2)` as applied to the float VAF on line 505: the exact
allele-support ratio is first rounded to the nearest binary64 by the float
division, and Python `round` then rounds the exact value of that double to
the nearest multiple of 1/100, ties to even; the printed decimal is the
result. -/
def round2 (x : ℚ) : ℚ :=
  let d := toDouble x
  Rat.divInt (roundHalfEven (Rat.divInt (d.num * 100) (d.den : Int))) 100

/-- Lines 513-518: scan the annotations of the retained record and take field
10 (the protein change) of the first one whose effect list contains the
retained effect; `none` models both an IndexError on a malformed annotation
and the TypeError that follows when no annotation matches. -/
def protChangeOf (eff : String) : List String → Option String
  | [] => none
  | pred :: rest =>
    ((pySplit pred '|').get? 1).bind (fun f1 =>
      if eff ∈ pySplit f1 '&' then (pySplit pred '|').get? 10
      else protChangeOf eff rest)

/-- One row of the mutation chart. -/
structure DetailRow where
  hugoSymbol : String
  sampleId : String
  protChange : String
  mutType : String
  chrom : String
  startPos : Int
  endPos : Int
  refAllele : String
  varAllele : String
  vaf : ℚ
deriving DecidableEq

/-- Lines 501-522: emission of one detail row for a retained (sample, gene)
record.  `none` models any exception raised on the way (scalar depth under
`sum`, zero total depth, malformed genotype, missing `ANN`, no annotation
carrying the retained effect, no MAF display name). -/
def emitDetail (gene samplename : String) (rec : VcfRecord) (g : Genotype)
    (eff : String) : Option DetailRow :=
  g.depth.bind (fun df =>
    (adList df).bind (fun dl =>
      g.vaf.bind (fun vf =>
        if dl.sum = 0 then none
        else
          (resolveCalledAllele rec g).bind (fun sgt =>
            rec.ann.bind (fun anns =>
              (protChangeOf eff anns).bind (fun pc =>
                (List.lookup eff mapping).map (fun mt =>
                  ⟨gene, samplename, pc, mt, rec.chrom, rec.pos,
                   rec.pos + (sgt.length : Int), rec.ref, sgt,
                   round2 (Rat.divInt (vf.drop 1).sum dl.sum)⟩)))))))

-- ---------------------------------------------------------------------
-- Specification-level predicates about annotations.

/-- An annotation string is considered by `find_effects` for the called
allele: its leading field equals the called allele and, in canonical mode,
its gene field is non-degenerate and its transcript field equals the
canonical transcript of that gene. -/
def matchesAnn (canonical : Bool) (cm : String → String)
    (sample_gt pred : String) : Prop :=
  (pySplit pred '|').headD "" = sample_gt ∧
  (canonical = true →
    ∃ gene, (pySplit pred '|').get? 4 = some gene ∧ 1 < gene.length ∧
      (pySplit pred '|').get? 6 = some (cm gene))

/-- The term `t` occurs in the effect field of some annotation of the record
that `find_effects` considers for the called allele. -/
def termPresent (canonical : Bool) (cm : String → String) (r : VcfRecord)
    (sample_gt t : String) : Prop :=
  ∃ anns, r.ann = some anns ∧
    ∃ pred ∈ anns, matchesAnn canonical cm sample_gt pred ∧
      ∃ ef, (pySplit pred '|').get? 1 = some ef ∧ t ∈ pySplit ef '&'

-- ---------------------------------------------------------------------
-- Concrete fixtures used by witnesses and counterexamples.

/-- Default thresholds of the script: depth 10, VAF 0.25, population
frequency 0.05, cohort frequency 0.10, minimum effect 1.50, GATK layout. -/
def cfgDefault : Config :=
  ⟨10, mkRat 1 4, mkRat 1 20, mkRat 1 10, mkRat 3 2, false⟩

/-- Trivial canonical-transcript map. -/
def cmEmpty : String → String := fun _ => ""

/-- Canonical-transcript map resolving the test gene id. -/
def cmCanon : String → String := fun g => if g = "ENSG01" then "ENST01" else ""

/-- A record matching scenario C of the specification: one annotated
missense variant, no population-frequency fields, cohort frequency 0.02. -/
def recScenC : VcfRecord :=
  ⟨"7", 100, "G",
   ["A"],
   some ["A|missense_variant|MODERATE|GENE|ENSG01|T|ENST01|p|c|n|p.V600E"],
   [],
   some [mkRat 1 50]⟩

/-- Genotype 0/1 with allele support 5 reference, 15 alternate. -/
def gtScenC : Genotype :=
  ⟨"0/1", some (.multi [5, 15]), some [5, 15]⟩

/-- Genotype with insufficient total depth (5 < 10). -/
def gtLowDepth : Genotype :=
  ⟨"0/1", some (.multi [2, 3]), some [2, 3]⟩

/-- Genotype failing the VAF gate: 2 of 10 reads support the variant. -/
def gtLowVaf : Genotype :=
  ⟨"0/1", some (.multi [8, 2]), some [8, 2]⟩

/-- The record of scenario C with the `MLEAF` INFO field absent. -/
def recNoMleaf : VcfRecord :=
  ⟨"7", 100, "G",
   ["A"],
   some ["A|missense_variant|MODERATE|GENE|ENSG01|T|ENST01|p|c|n|p.V600E"],
   [],
   none⟩

/-- A record with two annotations for the called allele on the canonical
transcript, carrying effect terms of severities 1.0 and 4.0 (scenario E). -/
def recTwoEff : VcfRecord :=
  ⟨"7", 200, "C",
   ["A"],
   some ["A|synonymous_variant|LOW|GENE|ENSG01|T|ENST01|p|c|n|p.A1A",
         "A|stop_gained|HIGH|GENE|ENSG01|T|ENST01|p|c|n|p.Q2x"],
   [],
   some [mkRat 1 50]⟩

/-- A record carrying a population-frequency field with a null entry and a
value 0.04. -/
def recPopFreq : VcfRecord :=
  ⟨"7", 300, "T",
   ["C"],
   some ["C|intron_variant|MOD|GENE|ENSG01|T|ENST01|p|c|n|p"],
   [("dbNSFP_ExAC_AF", [none, some (mkRat 1 25)])],
   some [mkRat 1 50]⟩

/-- Region scan fixture: two annotated records for gene symbol GENE, both
with sufficient depth and failing the VAF gate for this sample. -/
def recsTwoClean : List (VcfRecord × Option Genotype) :=
  [(recScenC, some gtLowVaf), (recTwoEff, some gtLowVaf)]

-- ---------------------------------------------------------------------
-- Sanity checks of the executable embedding (concrete evaluations).

example : pySplit "A|b||c" '|' = ["A", "b", "", "c"] := by decide
example : stripChar '|' "0|1" = "01" := by decide
example : pyToInt "12" = some 12 := by decide
example : pyToInt "-3" = some (-3) := by decide
example : pyToInt "." = none := by decide
example : pyIndex ["a", "b", "c"] (-1) = some "c" := by decide
example : pyInStr "GENE" "xx|GENE|yy" = true := by decide
example : vocab "missense_variant" = some (mkRat 3 2) := by decide
example : isReportable (mkRat 3 2) "splice_donor_variant" = true := by decide
example : isReportable (mkRat 3 2) "synonymous_variant" = false := by decide
example : argmaxIdx [1, 4, 4, 2] = 1 := by decide
example : check_depth 10 (.multi [5, 15]) = true := by decide
example : check_depth 10 (.scalar 7) = false := by decide
example : check_vaf (mkRat 1 4) gtLowVaf = some false := by decide
example : resolveCalledAllele recScenC gtScenC = some "A" := by decide
example : find_effects false cmEmpty recScenC "A" = some "missense_variant" := by decide
example : find_effects true cmCanon recTwoEff "A" = some "stop_gained" := by decide
example : processRecordSample cfgDefault cmEmpty recScenC gtScenC
    = some ["clean", "missense_variant"] := by decide
example : processRecordSample cfgDefault cmEmpty recScenC gtLowDepth = some [] := by decide
example : processRecordSample cfgDefault cmEmpty recScenC gtLowVaf = some ["clean"] := by decide
example : aggregate (mkRat 3 2) 4 ["clean", "clean", "clean"] = some ("clean", 0, none) := by decide
example : aggregate (mkRat 3 2) 7 ["clean", "clean", "clean"] = some ("None", 0, none) := by decide
example : aggregate (mkRat 3 2) 1 ["clean", "missense_variant"]
    = some ("missense_variant", 1, some (1, "missense_variant")) := by decide
example : collectEffects cfgDefault cmEmpty "GENE" recsTwoClean = some ["clean", "clean"] := by
  decide
example : countAnnotated "GENE" recsTwoClean = 2 := by decide
example : processGeneSample cfgDefault cmEmpty "GENE" recsTwoClean
    = some ("clean", 0, none) := by decide
example : round2 (Rat.divInt 15 20) = mkRat 3 4 := by decide
example : round2 (Rat.divInt 1 3) = mkRat 33 100 := by decide
example : round2 (Rat.divInt 10 16) = mkRat 62 100 := by decide
example : round2 (Rat.divInt 2 16) = mkRat 12 100 := by decide
example : round2 (Rat.divInt 3 8) = mkRat 38 100 := by decide
example : round2 (Rat.divInt 53 200) = mkRat 27 100 := by decide
example : processRecordSample cfgDefault cmEmpty recScenC
    ⟨"0/1", some (.scalar 20), some [5, 15]⟩ = none := by decide
example : emitDetail "GENE" "S1" recScenC gtScenC "missense_variant"
    = some ⟨"GENE", "S1", "p.V600E", "Missense_Mutation", "7", 100, 101, "G", "A", mkRat 3 4⟩ := by
  decide

-- ---------------------------------------------------------------------
-- Helper lemmas about the effect resolver.

theorem sevD_eq_of_vocab {t : String} {v : ℚ} (h : vocab t = some v) : sevD t = v := by
  simp [sevD, h]

theorem updateMax_le (ts : List String) (acc : String) :
    sevD acc ≤ sevD (updateMax acc ts) := by
  induction ts generalizing acc with
  | nil => simp [updateMax]
  | cons t ts ih =>
    simp only [updateMax]
    by_cases hc : ((vocab t).isSome && decide (sevD acc < sevD t)) = true
    · have hlt : sevD acc < sevD t :=
        of_decide_eq_true ((Bool.and_eq_true _ _).mp hc).2
      rw [if_pos hc]
      exact le_trans (le_of_lt hlt) (ih t)
    · rw [if_neg hc]
      exact ih acc

theorem updateMax_ge (ts : List String) (acc t : String) (ht : t ∈ ts)
    (hv : (vocab t).isSome) : sevD t ≤ sevD (updateMax acc ts) := by
  induction ts generalizing acc with
  | nil => cases ht
  | cons u ts ih =>
    simp only [updateMax]
    rcases List.mem_cons.mp ht with rfl | htl
    · by_cases hc : ((vocab t).isSome && decide (sevD acc < sevD t)) = true
      · rw [if_pos hc]
        exact updateMax_le ts t
      · rw [if_neg hc]
        have hnlt : ¬ sevD acc < sevD t := by
          intro hlt
          exact hc (by rw [hv, decide_eq_true hlt]; rfl)
        exact le_trans (le_of_not_lt hnlt) (updateMax_le ts acc)
    · by_cases hc : ((vocab u).isSome && decide (sevD acc < sevD u)) = true
      · rw [if_pos hc]; exact ih _ htl
      · rw [if_neg hc]; exact ih _ htl

theorem updateMax_cases (ts : List String) (acc : String) :
    updateMax acc ts = acc ∨
      (updateMax acc ts ∈ ts ∧ (vocab (updateMax acc ts)).isSome) := by
  induction ts generalizing acc with
  | nil => left; rfl
  | cons u ts ih =>
    simp only [updateMax]
    by_cases hc : ((vocab u).isSome && decide (sevD acc < sevD u)) = true
    · rw [if_pos hc]
      rcases ih u with h0 | ⟨hmem, hsome⟩
      · right
        rw [h0]
        exact ⟨List.mem_cons_self u ts, ((Bool.and_eq_true _ _).mp hc).1⟩
      · exact Or.inr ⟨List.mem_cons_of_mem u hmem, hsome⟩
    · rw [if_neg hc]
      rcases ih acc with h0 | ⟨hmem, hsome⟩
      · exact Or.inl h0
      · exact Or.inr ⟨List.mem_cons_of_mem u hmem, hsome⟩

theorem annStep_shape (canonical : Bool) (cm : String → String)
    (sample_gt acc pred res : String)
    (h : annStep canonical cm sample_gt acc pred = some res) :
    res = acc ∨
      ∃ ef, (pySplit pred '|').get? 1 = some ef ∧
        matchesAnn canonical cm sample_gt pred ∧
        res = updateMax acc (pySplit ef '&') := by
  unfold annStep at h
  by_cases hh : (pySplit pred '|').headD "" ≠ sample_gt
  · rw [if_pos hh] at h
    injection h with h
    exact Or.inl h.symm
  · rw [if_neg hh] at h
    have hhead : (pySplit pred '|').headD "" = sample_gt := not_not.mp hh
    by_cases hcan : canonical = true
    · rw [if_pos hcan] at h
      cases hg4 : (pySplit pred '|').get? 4 with
      | none => rw [hg4, Option.none_bind] at h; exact Option.noConfusion h
      | some gene =>
        rw [hg4, Option.some_bind] at h
        by_cases hlen : gene.length ≤ 1
        · rw [if_pos hlen] at h
          injection h with h
          exact Or.inl h.symm
        · rw [if_neg hlen] at h
          cases hg6 : (pySplit pred '|').get? 6 with
          | none => rw [hg6, Option.none_bind] at h; exact Option.noConfusion h
          | some tx =>
            rw [hg6, Option.some_bind] at h
            by_cases htx : tx ≠ cm gene
            · rw [if_pos htx] at h
              injection h with h
              exact Or.inl h.symm
            · rw [if_neg htx] at h
              cases hef : (pySplit pred '|').get? 1 with
              | none => rw [hef, Option.none_bind] at h; exact Option.noConfusion h
              | some ef =>
                rw [hef, Option.some_bind] at h
                injection h with h
                refine Or.inr ⟨ef, rfl, ⟨hhead, fun _ => ⟨gene, hg4, ?_, ?_⟩⟩, h.symm⟩
                · omega
                · rw [hg6, not_not.mp htx]
    · rw [if_neg hcan] at h
      cases hef : (pySplit pred '|').get? 1 with
      | none => rw [hef, Option.none_bind] at h; exact Option.noConfusion h
      | some ef =>
        rw [hef, Option.some_bind] at h
        injection h with h
        exact Or.inr ⟨ef, rfl, ⟨hhead, fun hq => absurd hq hcan⟩, h.symm⟩

theorem annStep_of_matches (canonical : Bool) (cm : String → String)
    (sample_gt acc pred res ef : String)
    (hm : matchesAnn canonical cm sample_gt pred)
    (hef : (pySplit pred '|').get? 1 = some ef)
    (h : annStep canonical cm sample_gt acc pred = some res) :
    res = updateMax acc (pySplit ef '&') := by
  obtain ⟨hhead, hcanon⟩ := hm
  unfold annStep at h
  rw [if_neg (not_not.mpr hhead)] at h
  by_cases hcan : canonical = true
  · obtain ⟨gene, hg4, hlen, hg6⟩ := hcanon hcan
    rw [if_pos hcan, hg4, Option.some_bind, if_neg (by omega), hg6, Option.some_bind,
        if_neg (not_not.mpr rfl), hef, Option.some_bind] at h
    injection h with h
    exact h.symm
  · rw [if_neg hcan, hef, Option.some_bind] at h
    injection h with h
    exact h.symm

theorem annStep_le (canonical : Bool) (cm : String → String)
    (sample_gt acc pred res : String)
    (h : annStep canonical cm sample_gt acc pred = some res) :
    sevD acc ≤ sevD res := by
  rcases annStep_shape canonical cm sample_gt acc pred res h with h0 | ⟨ef, _, _, hup⟩
  · rw [h0]
  · rw [hup]
    exact updateMax_le _ _

theorem foldEff_le (canonical : Bool) (cm : String → String) (sample_gt : String)
    (anns : List String) (acc res : String)
    (h : foldlOpt (annStep canonical cm sample_gt) acc anns = some res) :
    sevD acc ≤ sevD res := by
  induction anns generalizing acc with
  | nil =>
    simp only [foldlOpt] at h
    injection h with h
    rw [h]
  | cons pred anns ih =>
    simp only [foldlOpt] at h
    cases hs : annStep canonical cm sample_gt acc pred with
    | none => rw [hs] at h; exact Option.noConfusion h
    | some s2 =>
      rw [hs] at h
      exact le_trans (annStep_le canonical cm sample_gt acc pred s2 hs) (ih s2 h)

theorem foldEff_ge (canonical : Bool) (cm : String → String) (sample_gt : String)
    (anns : List String) (acc res t pred ef : String)
    (hp : pred ∈ anns)
    (hm : matchesAnn canonical cm sample_gt pred)
    (hef : (pySplit pred '|').get? 1 = some ef)
    (ht : t ∈ pySplit ef '&')
    (hv : (vocab t).isSome)
    (h : foldlOpt (annStep canonical cm sample_gt) acc anns = some res) :
    sevD t ≤ sevD res := by
  induction anns generalizing acc with
  | nil => cases hp
  | cons q anns ih =>
    simp only [foldlOpt] at h
    cases hs : annStep canonical cm sample_gt acc q with
    | none => rw [hs] at h; exact Option.noConfusion h
    | some s2 =>
      rw [hs] at h
      rcases List.mem_cons.mp hp with rfl | hp2
      · have h2 : s2 = updateMax acc (pySplit ef '&') :=
          annStep_of_matches canonical cm sample_gt acc pred s2 ef hm hef hs
        have h3 : sevD t ≤ sevD s2 := by
          rw [h2]
          exact updateMax_ge _ acc t ht hv
        exact le_trans h3 (foldEff_le canonical cm sample_gt anns s2 res h)
      · exact ih _ hp2 h

theorem foldEff_range (canonical : Bool) (cm : String → String) (sample_gt : String)
    (anns : List String) (acc res : String)
    (h : foldlOpt (annStep canonical cm sample_gt) acc anns = some res) :
    res = acc ∨
      ∃ pred ∈ anns, matchesAnn canonical cm sample_gt pred ∧
        ∃ ef, (pySplit pred '|').get? 1 = some ef ∧ res ∈ pySplit ef '&' ∧
          (vocab res).isSome := by
  induction anns generalizing acc with
  | nil =>
    simp only [foldlOpt] at h
    injection h with h
    exact Or.inl h.symm
  | cons q anns ih =>
    simp only [foldlOpt] at h
    cases hs : annStep canonical cm sample_gt acc q with
    | none => rw [hs] at h; exact Option.noConfusion h
    | some s2 =>
      rw [hs] at h
      rcases ih s2 h with h0 | ⟨pred, hp, hm, ef, hef, hmem, hsome⟩
      · rcases annStep_shape canonical cm sample_gt acc q s2 hs with h1 | ⟨ef, hef, hm, hup⟩
        · exact Or.inl (h0.trans h1)
        · rcases updateMax_cases (pySplit ef '&') acc with h2 | ⟨hmem, hsome⟩
          · exact Or.inl (by rw [h0, hup, h2])
          · refine Or.inr ⟨q, List.mem_cons_self q anns, hm, ef, hef, ?_, ?_⟩
            · rw [h0, hup]; exact hmem
            · rw [h0, hup]; exact hsome
      · exact Or.inr ⟨pred, List.mem_cons_of_mem q hp, hm, ef, hef, hmem, hsome⟩

/-- C3: for a successful run of the Effect Resolver, no known term strictly
less severe than some known term present among the annotations matching the
called allele (and the canonical transcript in canonical mode) is ever
returned; and when the record carries no usable annotation the sentinel
`"None"` is returned. -/
theorem find_effects_severity_max (canonical : Bool) (cm : String → String)
    (r : VcfRecord) (sample_gt res : String)
    (hres : find_effects canonical cm r sample_gt = some res) :
    (∀ t1 t2 v1 v2, vocab t1 = some v1 → vocab t2 = some v2 → v2 < v1 →
      termPresent canonical cm r sample_gt t1 → res ≠ t2) ∧
    ((∀ t, termPresent canonical cm r sample_gt t → vocab t = none) →
      res = "None") := by
  constructor
  · rintro t1 t2 v1 v2 hv1 hv2 hlt ⟨anns, hann, pred, hp, hm, ef, hef, ht⟩ hres2
    unfold find_effects at hres
    rw [hann] at hres
    have h1 : sevD t1 ≤ sevD res :=
      foldEff_ge canonical cm sample_gt anns "None" res t1 pred ef hp hm hef ht
        (by rw [hv1]; rfl) hres
    rw [sevD_eq_of_vocab hv1] at h1
    rw [hres2, sevD_eq_of_vocab hv2] at h1
    exact absurd h1 (not_le.mpr hlt)
  · intro hnone
    unfold find_effects at hres
    cases hann : r.ann with
    | none =>
      rw [hann] at hres
      injection hres with hres
      exact hres.symm
    | some anns =>
      rw [hann] at hres
      rcases foldEff_range canonical cm sample_gt anns "None" res hres with
        h0 | ⟨pred, hp, hm, ef, hef, hmem, hsome⟩
      · exact h0
      · have : vocab res = none :=
          hnone res ⟨anns, hann, pred, hp, hm, ef, hef, hmem⟩
        rw [this] at hsome
        exact Bool.noConfusion hsome

/-- Witness for C3: on a record carrying both a severity-1.0 and a
severity-4.0 annotation for the called allele, the resolver is run and the
theorem rules out the weaker term. -/
theorem find_effects_severity_max_witness :
    find_effects true cmCanon recTwoEff "A" = some "stop_gained" ∧
    "stop_gained" ≠ "synonymous_variant" := by
  constructor
  · decide
  · exact (find_effects_severity_max true cmCanon recTwoEff "A" "stop_gained"
      (by decide)).1 "stop_gained" "synonymous_variant" 4 1 (by decide) (by decide)
      (by decide)
      ⟨["A|synonymous_variant|LOW|GENE|ENSG01|T|ENST01|p|c|n|p.A1A",
        "A|stop_gained|HIGH|GENE|ENSG01|T|ENST01|p|c|n|p.Q2x"], rfl,
       "A|stop_gained|HIGH|GENE|ENSG01|T|ENST01|p|c|n|p.Q2x", by decide,
       ⟨by decide, fun _ => ⟨"ENSG01", by decide, by decide, by decide⟩⟩,
       "stop_gained", by decide, by decide⟩

-- ---------------------------------------------------------------------
-- Helper lemmas about the argmax selection.

theorem argmaxIdx_lt (l : List ℚ) (h : l ≠ []) : argmaxIdx l < l.length := by
  induction l with
  | nil => exact absurd rfl h
  | cons x xs ih =>
    cases xs with
    | nil => simp [argmaxIdx]
    | cons y rest =>
      simp only [argmaxIdx]
      by_cases hc : x < (y :: rest).getD (argmaxIdx (y :: rest)) 0
      · rw [if_pos hc]
        have h2 := ih (by simp)
        simp only [List.length_cons] at h2 ⊢
        omega
      · rw [if_neg hc]
        simp

theorem argmaxIdx_max (l : List ℚ) (j : Nat) (hj : j < l.length) :
    l.getD j 0 ≤ l.getD (argmaxIdx l) 0 := by
  induction l generalizing j with
  | nil => exact absurd hj (Nat.not_lt_zero j)
  | cons x xs ih =>
    cases xs with
    | nil =>
      have hj0 : j = 0 := by
        simp only [List.length_cons, List.length_nil] at hj
        omega
      subst hj0
      simp [argmaxIdx]
    | cons y rest =>
      simp only [argmaxIdx]
      by_cases hc : x < (y :: rest).getD (argmaxIdx (y :: rest)) 0
      · rw [if_pos hc]
        cases j with
        | zero =>
          simpa [List.getD_cons_zero, List.getD_cons_succ] using le_of_lt hc
        | succ k =>
          have hk : k < (y :: rest).length := by
            simp only [List.length_cons] at hj ⊢
            omega
          simpa [List.getD_cons_succ] using ih k hk
      · rw [if_neg hc]
        cases j with
        | zero => simp
        | succ k =>
          have hk : k < (y :: rest).length := by
            simp only [List.length_cons] at hj ⊢
            omega
          have h1 : (y :: rest).getD k 0 ≤ (y :: rest).getD (argmaxIdx (y :: rest)) 0 :=
            ih k hk
          have h2 : (y :: rest).getD (argmaxIdx (y :: rest)) 0 ≤ x := le_of_not_lt hc
          simp only [List.getD_cons_succ, List.getD_cons_zero]
          exact le_trans h1 h2

theorem argmaxIdx_first (l : List ℚ) (j : Nat) (hj : j < argmaxIdx l) :
    l.getD j 0 < l.getD (argmaxIdx l) 0 := by
  induction l generalizing j with
  | nil => simp [argmaxIdx] at hj
  | cons x xs ih =>
    cases xs with
    | nil => simp [argmaxIdx] at hj
    | cons y rest =>
      simp only [argmaxIdx] at hj ⊢
      by_cases hc : x < (y :: rest).getD (argmaxIdx (y :: rest)) 0
      · rw [if_pos hc] at hj ⊢
        cases j with
        | zero => simpa [List.getD_cons_zero, List.getD_cons_succ] using hc
        | succ k =>
          have hk : k < argmaxIdx (y :: rest) := Nat.lt_of_succ_lt_succ hj
          simpa [List.getD_cons_succ] using ih k hk
      · rw [if_neg hc] at hj
        exact absurd hj (Nat.not_lt_zero j)

theorem mapOpt_length {α β : Type} (f : α → Option β) (l : List α) (l2 : List β)
    (h : mapOpt f l = some l2) : l2.length = l.length := by
  induction l generalizing l2 with
  | nil =>
    simp only [mapOpt] at h
    injection h with h
    simp [← h]
  | cons a as ih =>
    simp only [mapOpt] at h
    cases hf : f a with
    | none => rw [hf] at h; exact Option.noConfusion h
    | some b =>
      rw [hf] at h
      cases hm : mapOpt f as with
      | none => rw [hm] at h; exact Option.noConfusion h
      | some bs =>
        rw [hm] at h
        injection h with h
        rw [← h]
        simp [ih bs hm]

theorem select_spec (effects : List String) (i : Nat)
    (h : select_maximum_effect effects = some i) :
    ∃ vals, mapOpt vocab effects = some vals ∧ vals.length = effects.length ∧
      vals ≠ [] ∧ i = argmaxIdx vals := by
  unfold select_maximum_effect at h
  cases hm : mapOpt vocab effects with
  | none => rw [hm, Option.none_bind] at h; exact Option.noConfusion h
  | some vals =>
    rw [hm, Option.some_bind] at h
    by_cases he : vals.isEmpty = true
    · rw [if_pos he] at h; exact Option.noConfusion h
    · rw [if_neg he] at h
      injection h with h
      refine ⟨vals, rfl, mapOpt_length _ _ _ hm, ?_, h.symm⟩
      intro hnil
      rw [hnil] at he
      exact he rfl

/-- C5: when `select_maximum_effect` succeeds, the returned index lies in the
sequence, carries the maximum severity, and every strictly earlier entry has
strictly smaller severity, so ties go to the first-encountered entry. -/
theorem select_maximum_first (effects : List String) (i : Nat)
    (h : select_maximum_effect effects = some i) :
    ∃ vals, mapOpt vocab effects = some vals ∧
      i < effects.length ∧
      (∀ j, j < effects.length → vals.getD j 0 ≤ vals.getD i 0) ∧
      (∀ j, j < i → vals.getD j 0 < vals.getD i 0) := by
  obtain ⟨vals, hm, hlen, hne, hi⟩ := select_spec effects i h
  subst hi
  refine ⟨vals, hm, ?_, ?_, ?_⟩
  · rw [← hlen]
    exact argmaxIdx_lt vals hne
  · intro j hj
    exact argmaxIdx_max vals j (by rw [hlen]; exact hj)
  · intro j hj
    exact argmaxIdx_first vals j hj

/-- Witness for C5 on a sequence with a severity tie between positions 1
and 2: the selected index is 1, the first of the tied maxima. -/
theorem select_maximum_first_witness :
    ∃ vals, mapOpt vocab ["clean", "stop_gained", "frameshift_variant"] = some vals ∧
      1 < (["clean", "stop_gained", "frameshift_variant"] : List String).length ∧
      (∀ j, j < (["clean", "stop_gained", "frameshift_variant"] : List String).length →
        vals.getD j 0 ≤ vals.getD 1 0) ∧
      (∀ j, j < 1 → vals.getD j 0 < vals.getD 1 0) :=
  select_maximum_first ["clean", "stop_gained", "frameshift_variant"] 1 (by decide)

-- ---------------------------------------------------------------------
-- Helper lemmas about the vocabulary tables and the aggregation.

theorem lookup_isSome_of_mem {β : Type} (l : List (String × β)) (a : String) (b : β)
    (h : (a, b) ∈ l) : (List.lookup a l).isSome := by
  induction l with
  | nil => cases h
  | cons kv l ih =>
    obtain ⟨k, v⟩ := kv
    rcases List.mem_cons.mp h with heq | h2
    · injection heq with h1 hb
      subst h1
      simp [List.lookup]
    · cases hk : a == k with
      | true => simp only [List.lookup, hk, Option.isSome_some]
      | false =>
        simp only [List.lookup, hk]
        exact ih h2

theorem isReportable_isSome (m : ℚ) (e : String) (h : isReportable m e = true) :
    (vocab e).isSome := by
  have hmem : e ∈ toselect m := of_decide_eq_true h
  unfold toselect at hmem
  obtain ⟨kv, hkv, hfst⟩ := List.mem_map.mp hmem
  have hv : kv ∈ vocabulary := (List.mem_filter.mp hkv).1
  obtain ⟨k, v⟩ := kv
  cases hfst
  exact lookup_isSome_of_mem vocabulary k v hv

theorem aggregate_cases (mineff : ℚ) (nrPos : Nat) (effects : List String)
    (c : String) (k : Nat) (ret : Option (Nat × String))
    (h : aggregate mineff nrPos effects = some (c, k, ret)) :
    (effects = [] ∧ c = "None" ∧ k = 0 ∧ ret = none) ∨
    ∃ loc, select_maximum_effect effects = some loc ∧
      k = (effects.filter (fun e => isReportable mineff e)).length ∧
      ((isReportable mineff (effects.getD loc "None") = true ∧
        c = effects.getD loc "None" ∧
        ret = (if (List.lookup c mapping).isSome then some (loc, c) else none)) ∨
       (isReportable mineff (effects.getD loc "None") = false ∧ ret = none ∧
        ((Rat.divInt (nrPos : Int) 2 ≤ ((effects.count "clean" : Nat) : ℚ) ∧
            c = "clean") ∨
         (¬ Rat.divInt (nrPos : Int) 2 ≤ ((effects.count "clean" : Nat) : ℚ) ∧
            c = "None")))) := by
  unfold aggregate at h
  by_cases hemp : effects.isEmpty = true
  · rw [if_pos hemp] at h
    simp only [Option.some.injEq, Prod.mk.injEq] at h
    obtain ⟨h1, h2, h3⟩ := h
    exact Or.inl ⟨List.isEmpty_iff.mp hemp, h1.symm, h2.symm, h3.symm⟩
  · rw [if_neg hemp] at h
    cases hs : select_maximum_effect effects with
    | none => rw [hs, Option.none_bind] at h; exact Option.noConfusion h
    | some loc =>
      rw [hs, Option.some_bind] at h
      by_cases hrep : isReportable mineff (effects.getD loc "None") = true
      · rw [if_pos hrep] at h
        simp only [Option.some.injEq, Prod.mk.injEq] at h
        obtain ⟨h1, h2, h3⟩ := h
        refine Or.inr ⟨loc, rfl, h2.symm, Or.inl ⟨hrep, h1.symm, ?_⟩⟩
        rw [← h3, h1]
      · rw [if_neg hrep] at h
        by_cases hcond :
            Rat.divInt (nrPos : Int) 2 ≤ ((effects.count "clean" : Nat) : ℚ)
        · rw [if_pos hcond] at h
          simp only [Option.some.injEq, Prod.mk.injEq] at h
          obtain ⟨h1, h2, h3⟩ := h
          exact Or.inr ⟨loc, rfl, h2.symm,
            Or.inr ⟨Bool.not_eq_true _ ▸ (by simpa using hrep), h3.symm,
              Or.inl ⟨hcond, h1.symm⟩⟩⟩
        · rw [if_neg hcond] at h
          simp only [Option.some.injEq, Prod.mk.injEq] at h
          obtain ⟨h1, h2, h3⟩ := h
          exact Or.inr ⟨loc, rfl, h2.symm,
            Or.inr ⟨Bool.not_eq_true _ ▸ (by simpa using hrep), h3.symm,
              Or.inr ⟨hcond, h1.symm⟩⟩⟩

theorem select_lt (effects : List String) (loc : Nat)
    (h : select_maximum_effect effects = some loc) : loc < effects.length := by
  obtain ⟨vals, hm, hlen, hne, hi⟩ := select_spec effects loc h
  subst hi
  rw [← hlen]
  exact argmaxIdx_lt vals hne

theorem getD_mem_of_lt (l : List String) (i : Nat) (d : String) (h : i < l.length) :
    l.getD i d ∈ l := by
  rw [List.getD_eq_getElem l d h]
  exact List.getElem_mem h

/-- C6: the Gene Aggregator maps an empty effect sequence to the `"None"`
classification with reportable count zero, and every successful aggregation
classifies as `"None"`, `"clean"`, or a key of the vocabulary. -/
theorem aggregate_empty_and_range :
    (∀ (mineff : ℚ) (nrPos : Nat),
      aggregate mineff nrPos [] = some ("None", 0, none)) ∧
    (∀ (mineff : ℚ) (nrPos : Nat) (effects : List String) (c : String) (k : Nat)
      (ret : Option (Nat × String)),
      aggregate mineff nrPos effects = some (c, k, ret) →
      c = "None" ∨ c = "clean" ∨ (vocab c).isSome = true) := by
  constructor
  · intro mineff nrPos
    rfl
  · intro mineff nrPos effects c k ret h
    rcases aggregate_cases mineff nrPos effects c k ret h with
      ⟨_, hc, _, _⟩ | ⟨loc, hsel, hk, hcase⟩
    · exact Or.inl hc
    · rcases hcase with ⟨hrep, hc, _⟩ | ⟨_, _, hcl⟩
      · refine Or.inr (Or.inr ?_)
        rw [hc]
        exact isReportable_isSome _ _ hrep
      · rcases hcl with ⟨_, hc⟩ | ⟨_, hc⟩
        · exact Or.inr (Or.inl hc)
        · exact Or.inl hc

/-- Witness for C6: the empty sequence at concrete thresholds, and the range
statement applied to a concrete reportable aggregation. -/
theorem aggregate_empty_and_range_witness :
    aggregate (mkRat 3 2) 5 [] = some ("None", 0, none) ∧
    ("stop_gained" = "None" ∨ "stop_gained" = "clean" ∨
      (vocab "stop_gained").isSome = true) :=
  ⟨aggregate_empty_and_range.1 (mkRat 3 2) 5,
   aggregate_empty_and_range.2 (mkRat 3 2) 1 ["stop_gained"] "stop_gained" 1
     (some (0, "stop_gained")) (by decide)⟩

/-- C2 counterexample: `splice_donor_variant` has severity 2.0, hence is
reportable at the default threshold 1.5, and has no MAF display name; the
aggregation nevertheless succeeds (no error is raised) and retains nothing
for the detail report, so the row is silently dropped. -/
theorem unmapped_reportable_cex :
    isReportable (mkRat 3 2) "splice_donor_variant" = true ∧
    List.lookup "splice_donor_variant" mapping = none ∧
    aggregate (mkRat 3 2) 1 ["splice_donor_variant"]
      = some ("splice_donor_variant", 1, none) := by
  decide

/-- C2 amended: when the worst effect is reportable but missing from the MAF
name mapping, the aggregation completes without error, reports the effect in
the classification, and silently retains no detail-report record. -/
theorem unmapped_reportable_silent (mineff : ℚ) (nrPos : Nat)
    (effects : List String) (c : String) (k : Nat) (ret : Option (Nat × String))
    (h : aggregate mineff nrPos effects = some (c, k, ret))
    (hnomap : List.lookup c mapping = none) :
    ret = none := by
  rcases aggregate_cases mineff nrPos effects c k ret h with
    ⟨_, _, _, hret⟩ | ⟨loc, _, _, hcase⟩
  · exact hret
  · rcases hcase with ⟨_, _, hret⟩ | ⟨_, hret, _⟩
    · rw [hret, hnomap]
      rfl
    · exact hret

/-- Witness for C2 amended, on a reportable effect without a display name. -/
theorem unmapped_reportable_silent_witness :
    aggregate (mkRat 3 2) 5 ["clean", "splice_acceptor_variant"]
      = some ("splice_acceptor_variant", 1, none) ∧
    (none : Option (Nat × String)) = none :=
  ⟨by decide,
   unmapped_reportable_silent (mkRat 3 2) 5 ["clean", "splice_acceptor_variant"]
     "splice_acceptor_variant" 1 none (by decide) (by decide)⟩

/-- C4: for a non-empty collected effect sequence with no reportable entry,
the classification is `"clean"` exactly when the number of `"clean"` entries
is at least half the shared annotated-position count of the gene, and
`"None"` otherwise. -/
theorem gene_clean_rule (cfg : Config) (cm : String → String) (symbol : String)
    (recs : List (VcfRecord × Option Genotype)) (effs : List String)
    (c : String) (k : Nat) (ret : Option (Nat × String))
    (hc : collectEffects cfg cm symbol recs = some effs)
    (hne : effs ≠ [])
    (hnorep : ∀ e ∈ effs, isReportable cfg.mineff e = false)
    (hagg : processGeneSample cfg cm symbol recs = some (c, k, ret)) :
    (Rat.divInt ((countAnnotated symbol recs : Nat) : Int) 2 ≤
        ((effs.count "clean" : Nat) : ℚ) ∧ c = "clean") ∨
    (¬ Rat.divInt ((countAnnotated symbol recs : Nat) : Int) 2 ≤
        ((effs.count "clean" : Nat) : ℚ) ∧ c = "None") := by
  unfold processGeneSample at hagg
  rw [hc, Option.some_bind] at hagg
  rcases aggregate_cases cfg.mineff (countAnnotated symbol recs) effs c k ret hagg
    with ⟨hemp, _⟩ | ⟨loc, hsel, _, hcase⟩
  · exact absurd hemp hne
  · have hloc : loc < effs.length := select_lt effs loc hsel
    have hmem : effs.getD loc "None" ∈ effs := getD_mem_of_lt effs loc "None" hloc
    rcases hcase with ⟨hrep, _⟩ | ⟨_, _, hcl⟩
    · rw [hnorep _ hmem] at hrep
      exact Bool.noConfusion hrep
    · exact hcl

/-- Witness for C4: a gene with two annotated positions and a sequence of
two `"clean"` entries is classified as `"clean"`. -/
theorem gene_clean_rule_witness :
    (Rat.divInt ((countAnnotated "GENE" recsTwoClean : Nat) : Int) 2 ≤
        (((["clean", "clean"] : List String).count "clean" : Nat) : ℚ) ∧
      "clean" = "clean") ∨
    (¬ Rat.divInt ((countAnnotated "GENE" recsTwoClean : Nat) : Int) 2 ≤
        (((["clean", "clean"] : List String).count "clean" : Nat) : ℚ) ∧
      "clean" = "None") :=
  gene_clean_rule cfgDefault cmEmpty "GENE" recsTwoClean ["clean", "clean"]
    "clean" 0 none (by decide) (by decide) (by decide) (by decide)

-- ---------------------------------------------------------------------
-- Helper lemmas about the population-frequency gate.

theorem foldl_max_le_iff (l : List ℚ) (a b : ℚ) :
    l.foldl max a ≤ b ↔ a ≤ b ∧ ∀ x ∈ l, x ≤ b := by
  induction l generalizing a with
  | nil => simp
  | cons x l ih =>
    simp only [List.foldl_cons]
    rw [ih (max a x)]
    constructor
    · rintro ⟨hax, hl⟩
      rcases max_le_iff.mp hax with ⟨ha, hx⟩
      refine ⟨ha, fun y hy => ?_⟩
      rcases List.mem_cons.mp hy with rfl | hy2
      · exact hx
      · exact hl y hy2
    · rintro ⟨ha, hl⟩
      exact ⟨max_le ha (hl x (List.mem_cons_self x l)),
        fun y hy => hl y (List.mem_cons_of_mem x hy)⟩

theorem mem_popfreqContribs (r : VcfRecord) (q : ℚ) :
    q ∈ popfreqContribs r ↔
      ∃ f ∈ FREQ_FIELDS, ∃ xs, List.lookup f r.freqInfo = some xs ∧
        ∃ x ∈ xs, x.getD 0 = q := by
  unfold popfreqContribs
  rw [List.mem_flatten]
  constructor
  · rintro ⟨l, hl, hq⟩
    obtain ⟨f, hf, heq⟩ := List.mem_map.mp hl
    cases hlk : List.lookup f r.freqInfo with
    | none =>
      rw [hlk, Option.elim_none] at heq
      rw [← heq] at hq
      cases hq
    | some xs =>
      rw [hlk, Option.elim_some] at heq
      rw [← heq] at hq
      obtain ⟨x, hx, hxq⟩ := List.mem_map.mp hq
      exact ⟨f, hf, xs, hlk, x, hx, hxq⟩
  · rintro ⟨f, hf, xs, hlk, x, hx, hxq⟩
    refine ⟨xs.map (fun y => y.getD 0), ?_, ?_⟩
    · refine List.mem_map.mpr ⟨f, hf, ?_⟩
      rw [hlk, Option.elim_some]
    · exact List.mem_map.mpr ⟨x, hx, hxq⟩

/-- C7: the population-frequency gate passes exactly when every value
contributed by a configured frequency field present on the record (null
entries counting as `0.0`) is at most `maxPopFreq`, and additionally the
implicit `0.0` seed of the scan is, which is the behaviour on a record with
no frequency field at all. -/
theorem popfreq_gate_iff (pf : ℚ) (r : VcfRecord) :
    popfreqGate pf r = true ↔
      (0 ≤ pf ∧ ∀ f ∈ FREQ_FIELDS, ∀ xs, List.lookup f r.freqInfo = some xs →
        ∀ x ∈ xs, x.getD 0 ≤ pf) := by
  have h1 : popfreqGate pf r = true ↔ (popfreqContribs r).foldl max 0 ≤ pf := by
    unfold popfreqGate
    rw [decide_eq_true_iff]
    exact Iff.rfl
  rw [h1, foldl_max_le_iff]
  constructor
  · rintro ⟨h0, hall⟩
    refine ⟨h0, fun f hf xs hlk x hx => ?_⟩
    exact hall _ ((mem_popfreqContribs r _).mpr ⟨f, hf, xs, hlk, x, hx, rfl⟩)
  · rintro ⟨h0, hall⟩
    refine ⟨h0, fun q hq => ?_⟩
    obtain ⟨f, hf, xs, hlk, x, hx, hxq⟩ := (mem_popfreqContribs r q).mp hq
    rw [← hxq]
    exact hall f hf xs hlk x hx

/-- Witness for C7 on a record carrying one frequency field with a null
entry and the value 0.04, against the default ceiling 0.05. -/
theorem popfreq_gate_iff_witness :
    0 ≤ mkRat 1 20 ∧ ∀ f ∈ FREQ_FIELDS, ∀ xs,
      List.lookup f recPopFreq.freqInfo = some xs →
      ∀ x ∈ xs, x.getD 0 ≤ mkRat 1 20 :=
  (popfreq_gate_iff (mkRat 1 20) recPopFreq).mp (by decide)

/-- C8: the depth gate is antitone in the minimum-depth threshold; a PASS at
threshold `d` stays a PASS at any threshold below it. -/
theorem check_depth_antitone (d d2 : Int) (df : ADField)
    (hle : d2 ≤ d) (h : check_depth d df = true) : check_depth d2 df = true := by
  cases df with
  | scalar n =>
    simp only [check_depth, Bool.not_eq_true', decide_eq_false_iff_not, not_lt] at h ⊢
    omega
  | multi l =>
    simp only [check_depth, Bool.not_eq_true', decide_eq_false_iff_not, not_lt] at h ⊢
    omega

/-- Witness for C8: a PASS at depth threshold 10 propagated to threshold 5. -/
theorem check_depth_antitone_witness :
    check_depth 5 (ADField.multi [5, 15]) = true :=
  check_depth_antitone 10 5 (ADField.multi [5, 15]) (by decide) (by decide)

/-- C10: once the allele-support, depth, VAF and population-frequency stages
pass, the record filter reads `INFO["MLEAF"]` unconditionally; a record
without that field makes the evaluation raise (modelled by `none`) instead of
producing a non-fatal FAIL. -/
theorem mleaf_required (cfg : Config) (cm : String → String) (r : VcfRecord)
    (g : Genotype) (df : ADField)
    (had : g.depth = some df)
    (hdp : check_depth cfg.mindepth df = true)
    (hvaf : check_vaf cfg.minvaf g = some true)
    (hpop : popfreqGate cfg.popfreq r = true)
    (hml : r.mleaf = none) :
    processRecordSample cfg cm r g = none := by
  unfold processRecordSample
  rw [had, Option.elim_some, if_pos hdp]
  cases df with
  | scalar n =>
    rw [show adList (ADField.scalar n) = none from rfl, Option.none_bind]
  | multi dl =>
    have hvaf2 := hvaf
    unfold check_vaf at hvaf2
    rw [had, Option.some_bind] at hvaf2
    cases hv : g.vaf with
    | none => rw [hv, Option.none_bind] at hvaf2; exact Option.noConfusion hvaf2
    | some vf =>
      rw [hv, Option.some_bind] at hvaf2
      by_cases hz : totalDepth (ADField.multi dl) = 0
      · rw [if_pos hz] at hvaf2
        exact Option.noConfusion hvaf2
      · rw [show adList (ADField.multi dl) = some dl from rfl, Option.some_bind,
            Option.some_bind, if_neg (show ¬ dl.sum = 0 from hz), hvaf,
            Option.some_bind, if_pos rfl, if_pos hpop, hml, Option.none_bind]

/-- Witness for C10: the scenario record with `MLEAF` removed, which passes
all earlier stages, makes the filter raise. -/
theorem mleaf_required_witness :
    processRecordSample cfgDefault cmEmpty recNoMleaf gtScenC = none :=
  mleaf_required cfgDefault cmEmpty recNoMleaf gtScenC (ADField.multi [5, 15])
    rfl (by decide) (by decide) (by decide) rfl

/-- C1 counterexample: on scenario C, a record and sample that pass every
stage, the filter appends BOTH a `"clean"` entry (line 402 of the script)
and the resolved effect (line 425) for the same position, so the position
contributes two effect slots, not one. -/
theorem record_slots_cex :
    check_ad gtScenC = true ∧
    processRecordSample cfgDefault cmEmpty recScenC gtScenC
      = some ["clean", "missense_variant"] := by
  decide

/-- C1 amended: a record and sample reaching the depth check contribute no
entry when the depth gate fails; when it passes, any entries at all require
the list-layout depth field with nonzero total (a scalar depth or a zero
total makes line 399 raise before the `"clean"` append, contributing
nothing), and then a `"clean"` entry is contributed, plus additionally the
resolved effect as a second entry when every later stage passes as well. -/
theorem record_slots_amended (cfg : Config) (cm : String → String)
    (r : VcfRecord) (g : Genotype) (df : ADField) (l : List String)
    (had : g.depth = some df)
    (hres : processRecordSample cfg cm r g = some l) :
    (check_depth cfg.mindepth df = false → l = []) ∧
    (check_depth cfg.mindepth df = true →
      (∃ dl, df = ADField.multi dl ∧ dl.sum ≠ 0) ∧
      (l = ["clean"] ∨
        ∃ e sgt, resolveCalledAllele r g = some sgt ∧
          find_effects cfg.canonical cm r sgt = some e ∧ l = ["clean", e])) := by
  unfold processRecordSample at hres
  rw [had, Option.elim_some] at hres
  by_cases hdp : check_depth cfg.mindepth df = true
  · rw [if_pos hdp] at hres
    refine ⟨fun hf => by rw [hf] at hdp; exact Bool.noConfusion hdp, fun _ => ?_⟩
    cases df with
    | scalar n =>
      rw [show adList (ADField.scalar n) = none from rfl, Option.none_bind] at hres
      exact Option.noConfusion hres
    | multi dl =>
      rw [show adList (ADField.multi dl) = some dl from rfl, Option.some_bind] at hres
      cases hv0 : g.vaf with
      | none => rw [hv0, Option.none_bind] at hres; exact Option.noConfusion hres
      | some vf0 =>
        rw [hv0, Option.some_bind] at hres
        by_cases hz : dl.sum = 0
        · rw [if_pos hz] at hres
          exact Option.noConfusion hres
        · rw [if_neg hz] at hres
          refine ⟨⟨dl, rfl, hz⟩, ?_⟩
          cases hv : check_vaf cfg.minvaf g with
            | none => rw [hv, Option.none_bind] at hres; exact Option.noConfusion hres
            | some vafOk =>
              rw [hv, Option.some_bind] at hres
              cases vafOk with
              | false =>
                rw [if_neg Bool.false_ne_true] at hres
                injection hres with hres
                exact Or.inl hres.symm
              | true =>
                rw [if_pos rfl] at hres
                by_cases hpop : popfreqGate cfg.popfreq r = true
                · rw [if_pos hpop] at hres
                  cases hml : r.mleaf with
                  | none => rw [hml, Option.none_bind] at hres; exact Option.noConfusion hres
                  | some ml =>
                    rw [hml, Option.some_bind] at hres
                    cases hcg : cohortGate cfg.cohfreq ml with
                    | none => rw [hcg, Option.none_bind] at hres; exact Option.noConfusion hres
                    | some cohOk =>
                      rw [hcg, Option.some_bind] at hres
                      cases cohOk with
                      | false =>
                        rw [if_neg Bool.false_ne_true] at hres
                        injection hres with hres
                        exact Or.inl hres.symm
                      | true =>
                        rw [if_pos rfl] at hres
                        cases hrc : resolveCalledAllele r g with
                        | none => rw [hrc, Option.none_bind] at hres; exact Option.noConfusion hres
                        | some sgt =>
                          rw [hrc, Option.some_bind] at hres
                          cases hfe : find_effects cfg.canonical cm r sgt with
                          | none =>
                            rw [hfe, Option.map_none'] at hres
                            exact Option.noConfusion hres
                          | some e =>
                            rw [hfe, Option.map_some'] at hres
                            injection hres with hres
                            exact Or.inr ⟨e, sgt, rfl, hfe, hres.symm⟩
                · rw [if_neg hpop] at hres
                  injection hres with hres
                  exact Or.inl hres.symm
  · rw [if_neg hdp] at hres
    injection hres with hres
    exact ⟨fun _ => hres.symm, fun ht => absurd ht hdp⟩

/-- Witness for C1 amended: a record passing the depth gate but failing the
VAF gate contributes exactly the single `"clean"` entry. -/
theorem record_slots_amended_witness :
    (check_depth cfgDefault.mindepth (ADField.multi [8, 2]) = false →
      (["clean"] : List String) = []) ∧
    (check_depth cfgDefault.mindepth (ADField.multi [8, 2]) = true →
      (∃ dl, ADField.multi [8, 2] = ADField.multi dl ∧ dl.sum ≠ 0) ∧
      ((["clean"] : List String) = ["clean"] ∨
        ∃ e sgt, resolveCalledAllele recScenC gtLowVaf = some sgt ∧
          find_effects cfgDefault.canonical cmEmpty recScenC sgt = some e ∧
          (["clean"] : List String) = ["clean", e])) :=
  record_slots_amended cfgDefault cmEmpty recScenC gtLowVaf (ADField.multi [8, 2])
    ["clean"] rfl (by decide)

-- ---------------------------------------------------------------------
-- Helper lemma about the protein-change scan of the detail report.

theorem protChangeOf_spec (eff : String) (anns : List String) (p : String)
    (h : protChangeOf eff anns = some p) :
    ∃ i, i < anns.length ∧
      (∃ f1, (pySplit (anns.getD i "") '|').get? 1 = some f1 ∧
        eff ∈ pySplit f1 '&' ∧
        (pySplit (anns.getD i "") '|').get? 10 = some p) ∧
      ∀ j, j < i → ∃ g1, (pySplit (anns.getD j "") '|').get? 1 = some g1 ∧
        eff ∉ pySplit g1 '&' := by
  induction anns with
  | nil => exact Option.noConfusion h
  | cons pred rest ih =>
    simp only [protChangeOf] at h
    cases hf1 : (pySplit pred '|').get? 1 with
    | none => rw [hf1, Option.none_bind] at h; exact Option.noConfusion h
    | some f1 =>
      rw [hf1, Option.some_bind] at h
      by_cases hmem : eff ∈ pySplit f1 '&'
      · rw [if_pos hmem] at h
        refine ⟨0, Nat.succ_pos _, ⟨f1, ?_, hmem, ?_⟩,
          fun j hj => absurd hj (Nat.not_lt_zero j)⟩
        · simpa [List.getD_cons_zero] using hf1
        · simpa [List.getD_cons_zero] using h
      · rw [if_neg hmem] at h
        obtain ⟨i, hi, ⟨f2, hf2, hm2, h10⟩, hfirst⟩ := ih h
        refine ⟨i + 1, ?_, ⟨f2, ?_, hm2, ?_⟩, ?_⟩
        · simp only [List.length_cons]
          omega
        · simpa [List.getD_cons_succ] using hf2
        · simpa [List.getD_cons_succ] using h10
        · intro j hj
          cases j with
          | zero =>
            exact ⟨f1, by simpa [List.getD_cons_zero] using hf1, hmem⟩
          | succ k =>
            have hk : k < i := Nat.lt_of_succ_lt_succ hj
            obtain ⟨g1, hg1, hng⟩ := hfirst k hk
            exact ⟨g1, by simpa [List.getD_cons_succ] using hg1, hng⟩

/-- C9: every emitted detail row takes its protein change from field 10 of
the first annotation whose effect list contains the retained effect, its end
position is the record position plus the length of the called allele (also
emitted as the variant allele), and its VAF is the allele-support ratio
rounded to two decimals. -/
theorem detail_row_fields (gene s : String) (rec : VcfRecord) (g : Genotype)
    (eff : String) (row : DetailRow)
    (h : emitDetail gene s rec g eff = some row) :
    (∃ anns, rec.ann = some anns ∧
      ∃ i, i < anns.length ∧
        (∃ f1, (pySplit (anns.getD i "") '|').get? 1 = some f1 ∧
          eff ∈ pySplit f1 '&' ∧
          (pySplit (anns.getD i "") '|').get? 10 = some row.protChange) ∧
        ∀ j, j < i → ∃ g1, (pySplit (anns.getD j "") '|').get? 1 = some g1 ∧
          eff ∉ pySplit g1 '&') ∧
    (∃ sgt, resolveCalledAllele rec g = some sgt ∧
      row.endPos = rec.pos + (sgt.length : Int) ∧ row.varAllele = sgt) ∧
    (∃ dl vf, g.depth = some (ADField.multi dl) ∧ g.vaf = some vf ∧
      row.vaf = round2 (Rat.divInt (vf.drop 1).sum dl.sum)) := by
  unfold emitDetail at h
  cases hgd : g.depth with
  | none => rw [hgd, Option.none_bind] at h; exact Option.noConfusion h
  | some df =>
    rw [hgd, Option.some_bind] at h
    cases df with
    | scalar n =>
      rw [show adList (ADField.scalar n) = none from rfl, Option.none_bind] at h
      exact Option.noConfusion h
    | multi dl =>
      rw [show adList (ADField.multi dl) = some dl from rfl, Option.some_bind] at h
      cases hvf : g.vaf with
      | none => rw [hvf, Option.none_bind] at h; exact Option.noConfusion h
      | some vf =>
        rw [hvf, Option.some_bind] at h
        by_cases hz : dl.sum = 0
        · rw [if_pos hz] at h; exact Option.noConfusion h
        · rw [if_neg hz] at h
          cases hrc : resolveCalledAllele rec g with
          | none => rw [hrc, Option.none_bind] at h; exact Option.noConfusion h
          | some sgt =>
            rw [hrc, Option.some_bind] at h
            cases hann : rec.ann with
            | none => rw [hann, Option.none_bind] at h; exact Option.noConfusion h
            | some anns =>
              rw [hann, Option.some_bind] at h
              cases hpc : protChangeOf eff anns with
              | none => rw [hpc, Option.none_bind] at h; exact Option.noConfusion h
              | some pc =>
                rw [hpc, Option.some_bind] at h
                cases hmt : List.lookup eff mapping with
                | none => rw [hmt, Option.map_none'] at h; exact Option.noConfusion h
                | some mt =>
                  rw [hmt, Option.map_some'] at h
                  injection h with h
                  subst h
                  exact ⟨⟨anns, rfl, protChangeOf_spec eff anns pc hpc⟩,
                    ⟨sgt, rfl, rfl, rfl⟩, ⟨dl, vf, rfl, rfl, rfl⟩⟩

/-- Witness for C9: the scenario C detail row with protein change p.V600E,
end position 101 and VAF 0.75. -/
theorem detail_row_fields_witness :
    (∃ anns, recScenC.ann = some anns ∧
      ∃ i, i < anns.length ∧
        (∃ f1, (pySplit (anns.getD i "") '|').get? 1 = some f1 ∧
          "missense_variant" ∈ pySplit f1 '&' ∧
          (pySplit (anns.getD i "") '|').get? 10 = some "p.V600E") ∧
        ∀ j, j < i → ∃ g1, (pySplit (anns.getD j "") '|').get? 1 = some g1 ∧
          "missense_variant" ∉ pySplit g1 '&') ∧
    (∃ sgt, resolveCalledAllele recScenC gtScenC = some sgt ∧
      (101 : Int) = recScenC.pos + (sgt.length : Int) ∧ "A" = sgt) ∧
    (∃ dl vf, gtScenC.depth = some (ADField.multi dl) ∧ gtScenC.vaf = some vf ∧
      mkRat 3 4 = round2 (Rat.divInt (vf.drop 1).sum dl.sum)) :=
  detail_row_fields "GENE" "S1" recScenC gtScenC "missense_variant"
    ⟨"GENE", "S1", "p.V600E", "Missense_Mutation", "7", 100, 101, "G", "A", mkRat 3 4⟩
    (by decide)
